import Mathlib

/-!
Shallow embedding of the account-state caching and commit layer
(`state/state.go` of gujianliang/thor).  Pure Lean translations of the
source functions, with the external collaborators (key/value store,
authenticated trie, RLP codec, keccak) modelled from the spec's interface
description.  Go maps are modelled as association lists; mutation is
explicit state passing.
-/

namespace ThorState

abbrev Bytes := List Nat
abbrev Hash := List Nat
abbrev Addr := List Nat

/-- Embeds `cry.Hash{}`: the all-zero 32-byte hash. -/
def zeroHash : Hash := List.replicate 32 0

/-- Embeds `cry.BytesToHash` / `common.BytesToHash`: right-aligned copy of the
bytes into a 32-byte hash; inputs longer than 32 bytes keep only the
last 32 bytes, shorter inputs are left-padded with zeros.  This is a
byte conversion, not a cryptographic hash. -/
def bytesToHash (b : Bytes) : Hash :=
  if 32 ≤ b.length then b.drop (b.length - 32)
  else List.replicate (32 - b.length) 0 ++ b

/-- Modelled from the spec: `crypto.Keccak256(nil)`, the hash of the empty
byte string (the only application of the external hash function appearing
in the source), as its well-known constant value. -/
def keccak256Nil : Hash :=
  [0xc5, 0xd2, 0x46, 0x01, 0x86, 0xf7, 0x23, 0x3c,
   0x92, 0x7e, 0x7d, 0xb2, 0xdc, 0xc7, 0x03, 0xc0,
   0xe5, 0x00, 0xb6, 0x53, 0xca, 0x82, 0x27, 0x3b,
   0x7b, 0xfa, 0xd8, 0x04, 0x5d, 0x85, 0xa4, 0x70]

/-- Minimal big-endian byte representation of a natural number. -/
def beBytes : Nat → Bytes
  | 0 => []
  | n + 1 => beBytes ((n + 1) / 256) ++ [(n + 1) % 256]
decreasing_by exact Nat.div_lt_self (Nat.succ_pos n) (by omega)

/-- Value of a big-endian byte string. -/
def beBytesVal (b : Bytes) : Nat := b.foldl (fun acc d => acc * 256 + d) 0

/-- Error kinds surfaced by the external collaborators (spec section 7),
tagged with the key involved so that distinct failures are distinct. -/
inductive Err
  | trieRead (key : Bytes)
  | trieWrite (key : Bytes)
  | trieDeleteErr (key : Bytes)
  | codec
  | store (key : Bytes)
deriving DecidableEq, Repr

/-- Modelled from the spec: the canonical RLP encoding of a byte string
(`rlp.EncodeToBytes` on a byte slice). -/
def rlpStr (b : Bytes) : Bytes :=
  match b with
  | [x] => if x < 0x80 then [x] else [0x81, x]
  | _ =>
    if b.length ≤ 55 then (0x80 + b.length) :: b
    else (0xb7 + (beBytes b.length).length) :: (beBytes b.length ++ b)

/-- Modelled from the spec: RLP list framing around an already-encoded
payload. -/
def rlpList (payload : Bytes) : Bytes :=
  if payload.length ≤ 55 then (0xc0 + payload.length) :: payload
  else (0xf7 + (beBytes payload.length).length) :: (beBytes payload.length ++ payload)

/-- Modelled from the spec: `rlp.Split` — splits off the first RLP item,
returning (isList, content, rest). -/
def rlpSplit (b : Bytes) : Except Err (Bool × Bytes × Bytes) :=
  match b with
  | [] => .error .codec
  | c :: rest =>
    if c < 0x80 then .ok (false, [c], rest)
    else if c ≤ 0xb7 then
      let n := c - 0x80
      if n ≤ rest.length then .ok (false, rest.take n, rest.drop n) else .error .codec
    else if c ≤ 0xbf then
      let ll := c - 0xb7
      if ll ≤ rest.length then
        let n := beBytesVal (rest.take ll)
        if n ≤ (rest.drop ll).length then
          .ok (false, (rest.drop ll).take n, (rest.drop ll).drop n)
        else .error .codec
      else .error .codec
    else if c ≤ 0xf7 then
      let n := c - 0xc0
      if n ≤ rest.length then .ok (true, rest.take n, rest.drop n) else .error .codec
    else
      let ll := c - 0xf7
      if ll ≤ rest.length then
        let n := beBytesVal (rest.take ll)
        if n ≤ (rest.drop ll).length then
          .ok (true, (rest.drop ll).take n, (rest.drop ll).drop n)
        else .error .codec
      else .error .codec

/-- Association-list lookup (model of Go map read). -/
def alookup {α β : Type} [DecidableEq α] (k : α) : List (α × β) → Option β
  | [] => none
  | (k', v) :: rest => if k = k' then some v else alookup k rest

/-- Association-list removal (model of Go map `delete`). -/
def aremove {α β : Type} [DecidableEq α] (k : α) : List (α × β) → List (α × β)
  | [] => []
  | (k', v) :: rest => if k = k' then aremove k rest else (k', v) :: aremove k rest

/-- Association-list in-place set (model of Go map assignment): replaces
the binding if present, otherwise appends it. -/
def aset {α β : Type} [DecidableEq α] (k : α) (v : β) : List (α × β) → List (α × β)
  | [] => [(k, v)]
  | (k', v') :: rest => if k = k' then (k, v) :: rest else (k', v') :: aset k v rest

/-- Lexicographic order on byte strings, used to keep trie contents in a
canonical order so the digest is independent of update order. -/
def ltBytes : Bytes → Bytes → Bool
  | [], [] => false
  | [], _ :: _ => true
  | _ :: _, [] => false
  | a :: as, b :: bs => if a < b then true else if b < a then false else ltBytes as bs

/-- Sorted insertion keyed by `ltBytes`, replacing an equal key. -/
def insertSorted (k v : Bytes) : List (Bytes × Bytes) → List (Bytes × Bytes)
  | [] => [(k, v)]
  | (k', v') :: rest =>
    if ltBytes k k' then (k, v) :: (k', v') :: rest
    else if k = k' then (k, v) :: rest
    else (k', v') :: insertSorted k v rest

/-- Modelled from the spec: the external key/value store (`kv.GetPutter`),
an association list of byte keys to byte values. -/
abbrev KV := List (Bytes × Bytes)

def kvGet (kv : KV) (k : Bytes) : Option Bytes := alookup k kv

def kvPut (kv : KV) (k v : Bytes) : KV := aset k v kv

/-- Modelled from the spec: the external authenticated trie engine
(`Trie.SecureTrie`).  `data` is the current key/value content, kept in
canonical order; `broken` lists keys whose backing nodes are unavailable,
so that get/update/delete on them fail (the spec's interface lets every
trie operation fail). -/
structure SecureTrie where
  data : List (Bytes × Bytes)
  broken : List Bytes
deriving DecidableEq, Repr

def SecureTrie.tryGet (t : SecureTrie) (k : Bytes) : Except Err Bytes :=
  if k ∈ t.broken then .error (.trieRead k)
  else .ok ((alookup k t.data).getD [])

def SecureTrie.tryUpdate (t : SecureTrie) (k v : Bytes) : Except Err SecureTrie :=
  if k ∈ t.broken then .error (.trieWrite k)
  else if v = [] then .ok { t with data := aremove k t.data }
  else .ok { t with data := insertSorted k v t.data }

def SecureTrie.tryDelete (t : SecureTrie) (k : Bytes) : Except Err SecureTrie :=
  if k ∈ t.broken then .error (.trieDeleteErr k)
  else .ok { t with data := aremove k t.data }

/-- Modelled from the spec: the trie's root digest — a pure, in-memory
function of the trie's canonical content. -/
def trieDigest (t : SecureTrie) : Hash :=
  bytesToHash (t.data.foldr (fun kv acc => rlpStr kv.1 ++ rlpStr kv.2 ++ acc) [1])

/-- Canonical serialization of trie content for persistence. -/
def serializeTrie (d : List (Bytes × Bytes)) : Bytes :=
  d.foldr (fun kv acc => rlpStr kv.1 ++ rlpStr kv.2 ++ acc) []

def deserializeTrieAux : Nat → Bytes → Except Err (List (Bytes × Bytes))
  | _, [] => .ok []
  | 0, _ :: _ => .error .codec
  | fuel + 1, b => do
    let (_, k, r1) ← rlpSplit b
    let (_, v, r2) ← rlpSplit r1
    let rest ← deserializeTrieAux fuel r2
    pure ((k, v) :: rest)

/-- Modelled from the spec: `Trie.NewSecure(root, kv, 0)` — the zero root
yields an empty trie; a nonzero root must resolve in the key/value store,
else the construction fails. -/
def newSecure (root : Hash) (kv : KV) : Except Err SecureTrie :=
  if root = zeroHash then .ok ⟨[], []⟩
  else
    match kvGet kv root with
    | some enc => (deserializeTrieAux (enc.length + 1) enc).map (fun d => ⟨d, []⟩)
    | none => .error (.trieRead root)

/-- Modelled from the spec: `SecureTrie.Commit` persists the staged nodes
to the key/value store and returns the root digest.  Persistence failure
of the store itself is not modelled (no claim depends on it). -/
def SecureTrie.commit (t : SecureTrie) (kv : KV) : Hash × KV :=
  (trieDigest t, kvPut kv (trieDigest t) (serializeTrie t.data))

/-- The persisted account record (`account` in state.go): balance,
code hash, storage root.  The balance (`*big.Int`, non-negative by the
spec's contract) is a natural number. -/
structure Account where
  balance : Nat
  codeHash : Hash
  storageRoot : Hash
deriving DecidableEq, Repr

/-- Embeds `rlp.EncodeToBytes` of the account record: RLP list of the minimal
big-endian balance and the two 32-byte hashes. -/
def encodeAccount (a : Account) : Bytes :=
  rlpList (rlpStr (beBytes a.balance) ++ rlpStr a.codeHash ++ rlpStr a.storageRoot)

/-- Embeds `rlp.DecodeBytes` into the account record: a list of exactly three
strings; the balance must have no leading zero byte, the hashes must be
exactly 32 bytes. -/
def decodeAccount (enc : Bytes) : Except Err Account := do
  let (isList, payload, rest) ← rlpSplit enc
  if !isList || rest ≠ [] then throw .codec
  let (l1, bal, r1) ← rlpSplit payload
  let (l2, ch, r2) ← rlpSplit r1
  let (l3, sr, r3) ← rlpSplit r2
  if l1 || l2 || l3 || r3 ≠ [] then throw .codec
  if bal.head? = some 0 then throw .codec
  if ch.length ≠ 32 || sr.length ≠ 32 then throw .codec
  pure ⟨beBytesVal bal, ch, sr⟩

/-- Embeds `storageStep` in state.go: the per-account storage-sync phase.
`noStorage` = None, `storageSet` = Pending, `storageUpdated` = Synced. -/
inductive StorageStep
  | noStorage
  | storageSet
  | storageUpdated
deriving DecidableEq, Repr

/-- Embeds `cachedAccount` in state.go: the in-memory cache entry for one
address.  `code = none` models a nil Go byte slice; `storage` is the
dirty overlay map; `storageTrie` is the lazily created storage-trie
handle. -/
structure CachedAccount where
  isDirty : Bool
  storageStep : StorageStep
  balance : Nat
  code : Option Bytes
  codeHash : Hash
  storageRoot : Hash
  storage : List (Hash × Hash)
  storageTrie : Option SecureTrie
deriving DecidableEq, Repr

/-- Embeds `State` in state.go: the global account trie, the key/value store,
the account cache, and the sticky error field. -/
structure State where
  trie : SecureTrie
  kv : KV
  cachedAccounts : List (Addr × CachedAccount)
  err : Option Err
deriving DecidableEq, Repr

/-- Embeds `New(root, kv)`: open the global trie at `root` over `kv`. -/
def State.new (root : Hash) (kv : KV) : Except Err State :=
  (newSecure root kv).map (fun t => ⟨t, kv, [], none⟩)

/-- The state `New(cry.Hash{}, kv)` yields over an empty key/value
store. -/
def emptyState : State := ⟨⟨[], []⟩, [], [], none⟩

/-- Embeds `Error()`: the sticky fault field. -/
def State.errorFlag (s : State) : Option Err := s.err

/-- The fresh cache entry built by `getAccount` when the global trie has
no entry for the address. -/
def freshAccount : CachedAccount :=
  { isDirty := false
    storageStep := .noStorage
    balance := 0
    code := none
    codeHash := bytesToHash keccak256Nil
    storageRoot := zeroHash
    storage := []
    storageTrie := none }

/-- Embeds `getAccount(addr)`: return the cached entry, or load it from the
global trie (and the key/value store for code), populating the cache.
Returns the entry together with the updated state. -/
def State.getAccount (s : State) (addr : Addr) : Except Err CachedAccount × State :=
  match alookup addr s.cachedAccounts with
  | some a => (.ok a, s)
  | none =>
    match s.trie.tryGet addr with
    | .error e => (.error e, { s with err := some e })
    | .ok enc =>
      if enc = [] then
        (.ok freshAccount,
         { s with cachedAccounts := aset addr freshAccount s.cachedAccounts })
      else
        match decodeAccount enc with
        | .error e => (.error e, s)
        | .ok data =>
          let base : CachedAccount :=
            { isDirty := false
              storageStep := .noStorage
              balance := data.balance
              code := none
              codeHash := data.codeHash
              storageRoot := data.storageRoot
              storage := []
              storageTrie := none }
          if data.codeHash ≠ keccak256Nil then
            match kvGet s.kv data.codeHash with
            | none => (.error (.store data.codeHash), s)
            | some code =>
              let a := { base with code := some code }
              (.ok a, { s with cachedAccounts := aset addr a s.cachedAccounts })
          else
            (.ok base, { s with cachedAccounts := aset addr base s.cachedAccounts })

/-- Embeds `GetBalance(addr)`: the cached balance, or zero on failure. -/
def State.getBalance (s : State) (addr : Addr) : Nat × State :=
  match s.getAccount addr with
  | (.error e, s') => (0, { s' with err := some e })
  | (.ok a, s') => (a.balance, s')

/-- Embeds `SetBalance(addr, balance)`: mark dirty, replace the balance. -/
def State.setBalance (s : State) (addr : Addr) (balance : Nat) : State :=
  match s.getAccount addr with
  | (.error e, s') => { s' with err := some e }
  | (.ok a, s') =>
    let a' := { a with isDirty := true, balance := balance }
    { s' with cachedAccounts := aset addr a' s'.cachedAccounts }

/-- Embeds `SetStorage(addr, key, value)`: set the phase to Pending and write
into the overlay. -/
def State.setStorage (s : State) (addr : Addr) (key value : Hash) : State :=
  match s.getAccount addr with
  | (.error e, s') => { s' with err := some e }
  | (.ok a, s') =>
    let a' := { a with storageStep := .storageSet, storage := aset key value a.storage }
    { s' with cachedAccounts := aset addr a' s'.cachedAccounts }

/-- Embeds `getTrie(addr)`: the account's storage-trie handle, created lazily
from its storage root.  The address is cached by every caller; on a
missing entry Go would dereference a nil map value, which cannot arise
from the exported operations. -/
def State.getTrie (s : State) (addr : Addr) : Except Err SecureTrie × State :=
  match alookup addr s.cachedAccounts with
  | none => (.error (.trieRead addr), s)
  | some a =>
    match a.storageTrie with
    | some t => (.ok t, s)
    | none =>
      match newSecure a.storageRoot s.kv with
      | .error e => (.error e, s)
      | .ok t =>
        let a' := { a with storageTrie := some t }
        (.ok t, { s with cachedAccounts := aset addr a' s.cachedAccounts })

/-- The overlay-miss path of `GetStorage`: load the account, fall through
to its storage trie, decode, and write the value back into the overlay
when the key is present. -/
def State.getStorageSlow (s : State) (addr : Addr) (key : Hash) : Hash × State :=
  match s.getAccount addr with
  | (.error e, s₁) => (zeroHash, { s₁ with err := some e })
  | (.ok _, s₁) =>
    match s₁.getTrie addr with
    | (.error e, s₂) => (zeroHash, { s₂ with err := some e })
    | (.ok st, s₂) =>
      match st.tryGet key with
      | .error e => (zeroHash, { s₂ with err := some e })
      | .ok enc =>
        if enc = [] then (zeroHash, s₂)
        else
          match rlpSplit enc with
          | .error e => (zeroHash, { s₂ with err := some e })
          | .ok (_, content, _) =>
            let value := bytesToHash content
            let s₃ :=
              match alookup addr s₂.cachedAccounts with
              | some a =>
                let a' := { a with storage := aset key value a.storage }
                { s₂ with cachedAccounts := aset addr a' s₂.cachedAccounts }
              | none => s₂
            (value, s₃)

/-- Embeds `GetStorage(addr, key)`: the overlay is checked first; an overlay hit
is served without touching the storage trie. -/
def State.getStorage (s : State) (addr : Addr) (key : Hash) : Hash × State :=
  match alookup addr s.cachedAccounts with
  | some a =>
    match alookup key a.storage with
    | some value => (value, s)
    | none => s.getStorageSlow addr key
  | none => s.getStorageSlow addr key

/-- Embeds `GetCode(addr)`: the cached code bytes (`none` models nil). -/
def State.getCode (s : State) (addr : Addr) : Option Bytes × State :=
  match s.getAccount addr with
  | (.error e, s') => (none, { s' with err := some e })
  | (.ok a, s') => (a.code, s')

/-- Embeds `SetCode(addr, code)`: `codeHash := cry.BytesToHash(code)` (a byte
conversion, exactly as the source computes it), immediate `kv.Put` of
`(codeHash, code)`, then set the cached code hash and mark dirty.  The
model's `kvPut` does not fail. -/
def State.setCode (s : State) (addr : Addr) (code : Option Bytes) : State :=
  match s.getAccount addr with
  | (.error e, s') => { s' with err := some e }
  | (.ok a, s') =>
    let codeHash := bytesToHash (code.getD [])
    let s₁ := { s' with kv := kvPut s'.kv codeHash (code.getD []) }
    let a' := { a with isDirty := true, codeHash := codeHash, code := code }
    { s₁ with cachedAccounts := aset addr a' s₁.cachedAccounts }

/-- Embeds `Exists(addr)`: true if cached, else true iff the global trie has a
non-empty entry. -/
def State.exists' (s : State) (addr : Addr) : Bool × State :=
  match alookup addr s.cachedAccounts with
  | some _ => (true, s)
  | none =>
    match s.trie.tryGet addr with
    | .error e => (false, { s with err := some e })
    | .ok enc => (decide (enc ≠ []), s)

/-- Embeds `Delete(addr)`: remove the cache entry and delete the address from
the global trie immediately. -/
def State.delete (s : State) (address : Addr) : State :=
  let s₁ := { s with cachedAccounts := aremove address s.cachedAccounts }
  match s₁.trie.tryDelete address with
  | .error e => { s₁ with err := some e }
  | .ok t => { s₁ with trie := t }

/-- Embeds `isEmpty`: zero balance and nil code. -/
def isEmpty (a : CachedAccount) : Bool := a.balance = 0 && a.code = none

/-- The loop of `updateStorage` (state.go lines 210-218): push each
overlay entry into the storage trie, deleting it from the overlay once
pushed.  Returns (success, current trie, remaining overlay).  On a
failing `TryUpdate` the source stops with the current entry still in the
overlay; the `rlp.EncodeToBytes` error is discarded by the source
(`v, _ :=`) and cannot occur for a byte slice. -/
def updateStorageLoop (st : SecureTrie) :
    List (Hash × Hash) → Bool × SecureTrie × List (Hash × Hash)
  | [] => (true, st, [])
  | (key, value) :: rest =>
    let v := rlpStr (value.dropWhile (· = 0))
    match st.tryUpdate key v with
    | .error _ => (false, st, (key, value) :: rest)
    | .ok st' => updateStorageLoop st' rest

/-- Embeds `updateStorage(addr, cachedAccount)`: flush the overlay into the
storage trie.  Returns (trie pointer, returned error, state); `none` for
the trie models Go's nil pointer.  The source's failure branch
(lines 213-215) assigns the shadowing *nil* `err` variable to `s.err` —
erasing any previously recorded fault — and returns a nil trie together
with a nil error; the model reproduces that slip exactly. -/
def State.updateStorage (s : State) (addr : Addr) :
    Option SecureTrie × Option Err × State :=
  match s.getTrie addr with
  | (.error e, s₁) => (none, some e, s₁)
  | (.ok st, s₁) =>
    match alookup addr s₁.cachedAccounts with
    | none => (none, none, s₁)
    | some a =>
      match updateStorageLoop st a.storage with
      | (true, st', rest) =>
        let a' := { a with storage := rest, storageTrie := some st' }
        (some st', none, { s₁ with cachedAccounts := aset addr a' s₁.cachedAccounts })
      | (false, st', rest) =>
        let a' := { a with storage := rest, storageTrie := some st' }
        (none, none,
         { s₁ with err := none, cachedAccounts := aset addr a' s₁.cachedAccounts })

/-- Embeds `updateAccount(addr, cachedAccount)`: re-encode the record and write
it into the global trie.  The RLP encoding of the fixed record shape
cannot fail. -/
def State.updateAccount (s : State) (addr : Addr) (a : CachedAccount) :
    Option Err × State :=
  let enc := encodeAccount ⟨a.balance, a.codeHash, a.storageRoot⟩
  match s.trie.tryUpdate addr enc with
  | .error e => (some e, { s with err := some e })
  | .ok t => (none, { s with trie := t })

/-- Outcome of `Root()`/`Commit()`: a returned hash, or a Go runtime
panic (nil-pointer dereference). -/
inductive Outcome (α : Type)
  | ok (a : α)
  | crashed
deriving DecidableEq, Repr

/-- Result of one iteration of the `Root()` loop: continue, return early
with a hash, or crash. -/
inductive LoopRes
  | cont (s : State)
  | stop (h : Hash) (s : State)
  | crash (s : State)
deriving DecidableEq, Repr

/-- Result of the storage-sync lines of `Root()`'s loop body. -/
inductive SyncRes
  | stopErr (e : Err) (s : State)
  | nilDeref (s : State)
  | synced (s : State) (a : CachedAccount)
deriving DecidableEq, Repr

/-- The storage-sync phase of `Root()`'s loop body (state.go
lines 326-333): flush the overlay, recompute `storageRoot` from the
trie's digest, mark dirty, move the phase to Synced.  When
`updateStorage` returns a nil trie with a nil error (its buggy failure
branch), `trie.Hash()` dereferences a nil pointer. -/
def State.syncStorage (s : State) (addr : Addr) (account : CachedAccount) : SyncRes :=
  match s.updateStorage addr with
  | (_, some e, s₁) => .stopErr e s₁
  | (some st, none, s₁) =>
    let a₁ := (alookup addr s₁.cachedAccounts).getD account
    let a₂ := { a₁ with storageRoot := trieDigest st, isDirty := true,
                        storageStep := .storageUpdated }
    .synced { s₁ with cachedAccounts := aset addr a₂ s₁.cachedAccounts } a₂
  | (none, none, s₁) => .nilDeref s₁

/-- One iteration of the `Root()` loop (state.go lines 320-342): prune an
empty account, otherwise sync Pending storage and flush a dirty record
into the global trie. -/
def State.rootBody (s : State) (addr : Addr) : LoopRes :=
  match alookup addr s.cachedAccounts with
  | none => .cont s
  | some account =>
    if isEmpty account then .cont (s.delete addr)
    else
      let afterSync :=
        if account.storageStep = .storageSet then s.syncStorage addr account
        else .synced s account
      match afterSync with
      | .stopErr e s₁ => .stop zeroHash { s₁ with err := some e }
      | .nilDeref s₁ => .crash s₁
      | .synced s₁ a₁ =>
        if a₁.isDirty then
          match s₁.updateAccount addr a₁ with
          | (some e, s₂) => .stop zeroHash { s₂ with err := some e }
          | (none, s₂) =>
            let a₂ := { a₁ with isDirty := false }
            .cont { s₂ with cachedAccounts := aset addr a₂ s₂.cachedAccounts }
        else .cont s₁

/-- The `Root()` loop over a snapshot of the cached addresses; Go's map
iteration only ever sees the current address removed, so the snapshot is
faithful. -/
def State.rootLoop (s : State) : List Addr → Outcome Hash × State
  | [] => (.ok (trieDigest s.trie), s)
  | addr :: rest =>
    match s.rootBody addr with
    | .cont s₁ => s₁.rootLoop rest
    | .stop h s₁ => (.ok h, s₁)
    | .crash s₁ => (.crashed, s₁)

/-- Embeds `Root()`: walk the cache, then return the global trie's digest.
Never persists to the key/value store. -/
def State.root (s : State) : Outcome Hash × State :=
  s.rootLoop (s.cachedAccounts.map Prod.fst)

/-- One iteration of the `Commit()` loop (state.go lines 296-309):
persist the storage trie of a Synced account, then drop the cache entry.
`.error` carries the early `return cry.Hash{}` of the source. -/
def State.commitVisit (s : State) (addr : Addr) : Except (Hash × State) State :=
  match alookup addr s.cachedAccounts with
  | none => .ok s
  | some account =>
    if account.storageStep = .storageUpdated then
      match s.getTrie addr with
      | (.error e, s₁) => .error (zeroHash, { s₁ with err := some e })
      | (.ok st, s₁) =>
        let (_, kv') := st.commit s₁.kv
        .ok { s₁ with kv := kv', cachedAccounts := aremove addr s₁.cachedAccounts }
    else .ok { s with cachedAccounts := aremove addr s.cachedAccounts }

def State.commitLoop (s : State) : List Addr → Except (Hash × State) State
  | [] => .ok s
  | addr :: rest =>
    match s.commitVisit addr with
    | .error r => .error r
    | .ok s₁ => s₁.commitLoop rest

/-- The persistence half of `Commit()`: walk the (post-`Root()`) cache,
then commit the global trie. -/
def State.commitFinish (s : State) : Outcome Hash × State :=
  match s.commitLoop (s.cachedAccounts.map Prod.fst) with
  | .error (h, s₂) => (.ok h, s₂)
  | .ok s₂ =>
    let (root, kv') := s₂.trie.commit s₂.kv
    (.ok root, { s₂ with kv := kv' })

/-- Embeds `Commit()`: run `Root()` (its return value is discarded by the
source), persist every Synced storage trie, clear the cache, then commit
the global trie. -/
def State.commit (s : State) : Outcome Hash × State :=
  match s.root with
  | (.crashed, s₁) => (.crashed, s₁)
  | (.ok _, s₁) => s₁.commitFinish

/-! ### Basic association-list lemmas -/

/-! ### Supporting definitions: fault-free-state predicates,
flush abstractions, and the concrete scenario inputs used by the
claim theorems, witnesses and counterexamples -/

def acctOk (a : CachedAccount) : Bool :=
  match a.storageTrie with
  | none => a.storageRoot == zeroHash
  | some t => t.broken == []

def stateOk (s : State) : Bool :=
  (s.trie.broken == []) && s.cachedAccounts.all fun p => acctOk p.2

/-- An account the `Root()` walk has fully processed: not empty, storage
phase not Pending, not dirty. -/
def doneAcct (a : CachedAccount) : Bool :=
  !isEmpty a && !(a.storageStep == .storageSet) && !a.isDirty

/-- The state with one cache entry replaced (the Go pattern of writing
through an account pointer). -/
def setAcct (s : State) (addr : Addr) (a : CachedAccount) : State :=
  { s with cachedAccounts := aset addr a s.cachedAccounts }

/-- The storage trie `getTrie` resolves for an account: the live handle,
or a trie freshly opened from the storage root. -/
def baseStorageTrie (a : CachedAccount) (kv : KV) : Except Err SecureTrie :=
  match a.storageTrie with
  | some t => .ok t
  | none => newSecure a.storageRoot kv

/-- The storage trie after `updateStorage` has pushed the whole overlay
into `t₀`. -/
def flushedTrie (a : CachedAccount) (t₀ : SecureTrie) : SecureTrie :=
  ⟨a.storage.foldl (fun d kv => insertSorted kv.1 (rlpStr (kv.2.dropWhile (· = 0))) d) t₀.data,
   t₀.broken⟩

/-- The cache entry after the storage-sync phase of `Root()`:
overlay emptied, live flushed trie handle, storage root recomputed from
the trie digest, dirty, phase Synced. -/
def syncedAcct (a : CachedAccount) (t₀ : SecureTrie) : CachedAccount :=
  { a with storage := [], storageTrie := some (flushedTrie a t₀),
           storageRoot := trieDigest (flushedTrie a t₀), isDirty := true,
           storageStep := .storageUpdated }

def wAddr : Addr := List.replicate 20 1

def wAddr2 : Addr := List.replicate 20 2

def wKey : Hash := List.replicate 32 5

def wVal : Hash := List.replicate 32 9

/-- A cached, empty account whose address also has an entry in the
global trie (it "previously existed"). -/
def prevAcct : CachedAccount :=
  { isDirty := false
    storageStep := .noStorage
    balance := 0
    code := none
    codeHash := bytesToHash keccak256Nil
    storageRoot := zeroHash
    storage := []
    storageTrie := none }

def prevState : State :=
  { trie := ⟨[(wAddr, encodeAccount ⟨0, bytesToHash keccak256Nil, zeroHash⟩)], []⟩
    kv := []
    cachedAccounts := [(wAddr, prevAcct)]
    err := none }

/-- A Pending account whose storage trie has an unavailable node at the
overlay's key, so `TryUpdate` fails during the flush. -/
def faultAcct : CachedAccount :=
  { isDirty := false
    storageStep := .storageSet
    balance := 7
    code := none
    codeHash := bytesToHash keccak256Nil
    storageRoot := zeroHash
    storage := [(wKey, wVal)]
    storageTrie := some ⟨[], [wKey]⟩ }

def faultState : State :=
  { trie := ⟨[], []⟩
    kv := []
    cachedAccounts := [(wAddr, faultAcct)]
    err := some (.store [1]) }

/-- A state whose global trie fails on two addresses. -/
def brokenState : State :=
  { trie := ⟨[], [wAddr, wAddr2]⟩
    kv := []
    cachedAccounts := []
    err := none }

/-- An account with a live storage trie that holds an encoded value for
`wKey2`, with an empty overlay. -/
def wKey2 : Hash := List.replicate 32 6

def c5Acct : CachedAccount :=
  { isDirty := false
    storageStep := .noStorage
    balance := 7
    code := none
    codeHash := bytesToHash keccak256Nil
    storageRoot := zeroHash
    storage := []
    storageTrie := some ⟨[(wKey2, rlpStr (wVal.dropWhile (· = 0)))], []⟩ }

def c5State : State :=
  { trie := ⟨[], []⟩
    kv := []
    cachedAccounts := [(wAddr, c5Acct)]
    err := none }

/-- The state of C5's counterexample: a cached account, empty overlay,
no storage written. -/
def c5NoWbState : State := emptyState.setBalance wAddr 5

def code33a : Bytes := 1 :: List.replicate 32 0

def code33b : Bytes := 2 :: List.replicate 32 0

def twoCodeState : State :=
  (emptyState.setCode wAddr (some code33a)).setCode wAddr2 (some code33b)

/-- The cache entry after `SetStorage`: phase Pending, overlay updated
(the mutation `SetStorage` performs on a cached account). -/
def pendingAcct (a : CachedAccount) (key value : Hash) : CachedAccount :=
  { a with storageStep := .storageSet, storage := aset key value a.storage }

/-- The cached account created by `SetBalance(wAddr, 5)` on a fresh
state view. -/
def w7Acct : CachedAccount := { freshAccount with isDirty := true, balance := 5 }

def w7State : State := emptyState.setBalance wAddr 5

def w8State : State := emptyState.setBalance wAddr 5

/-- A mutation of the exposed `Set*` surface. -/
inductive Op
  | opSetBalance (addr : Addr) (v : Nat)
  | opSetStorage (addr : Addr) (key value : Hash)
  | opSetCode (addr : Addr) (code : Option Bytes)

def applyOp (s : State) : Op → State
  | .opSetBalance addr v => s.setBalance addr v
  | .opSetStorage addr key value => s.setStorage addr key value
  | .opSetCode addr code => s.setCode addr code

def runOps (s : State) (ops : List Op) : State := ops.foldl applyOp s

/-! ### Theorems -/

theorem alookup_aset_self {α β : Type} [DecidableEq α] (k : α) (v : β) :
    ∀ l : List (α × β), alookup k (aset k v l) = some v
  | [] => by simp [aset, alookup]
  | (k', v') :: rest => by
    by_cases h : k = k'
    · simp [aset, alookup, h]
    · simp [aset, alookup, h, alookup_aset_self k v rest]

theorem alookup_aset_ne {α β : Type} [DecidableEq α] {k k' : α} (v : β)
    (h : k ≠ k') : ∀ l : List (α × β), alookup k (aset k' v l) = alookup k l
  | [] => by simp [aset, alookup, h]
  | (k₀, v₀) :: rest => by
    by_cases h0 : k' = k₀
    · subst h0; simp [aset, alookup, h]
    · by_cases h1 : k = k₀
      · simp [aset, alookup, h0, h1]
      · simp [aset, alookup, h0, h1, alookup_aset_ne v h rest]

theorem alookup_aremove_self {α β : Type} [DecidableEq α] (k : α) :
    ∀ l : List (α × β), alookup k (aremove k l) = none
  | [] => by simp [aremove, alookup]
  | (k₀, v₀) :: rest => by
    by_cases h : k = k₀
    · subst h; simp [aremove, alookup_aremove_self k rest]
    · simp [aremove, alookup, h, alookup_aremove_self k rest]

theorem alookup_aremove_ne {α β : Type} [DecidableEq α] {k k' : α}
    (h : k ≠ k') : ∀ l : List (α × β), alookup k (aremove k' l) = alookup k l
  | [] => by simp [aremove, alookup]
  | (k₀, v₀) :: rest => by
    by_cases h0 : k' = k₀
    · subst h0; simp [aremove, alookup, h, alookup_aremove_ne h rest]
    · by_cases h1 : k = k₀
      · simp [aremove, alookup, h0, h1]
      · simp [aremove, alookup, h0, h1, alookup_aremove_ne h rest]

theorem aset_eq_of_alookup {α β : Type} [DecidableEq α] {k : α} {v : β} :
    ∀ {l : List (α × β)}, alookup k l = some v → aset k v l = l
  | [], h => by simp [alookup] at h
  | (k₀, v₀) :: rest, h => by
    by_cases h0 : k = k₀
    · subst h0
      simp [alookup] at h
      simp [aset, h]
    · simp [alookup, h0] at h
      simp [aset, h0, aset_eq_of_alookup h]

theorem mem_map_fst_of_alookup {α β : Type} [DecidableEq α] {k : α} {v : β} :
    ∀ {l : List (α × β)}, alookup k l = some v → k ∈ l.map Prod.fst
  | [], h => by simp [alookup] at h
  | (k₀, v₀) :: rest, h => by
    by_cases h0 : k = k₀
    · simp [h0]
    · simp [alookup, h0] at h
      simp [h0, mem_map_fst_of_alookup h]

theorem alookup_insertSorted_self (k v : Bytes) :
    ∀ d : List (Bytes × Bytes), alookup k (insertSorted k v d) = some v
  | [] => by simp [insertSorted, alookup]
  | (k₀, v₀) :: rest => by
    by_cases hlt : ltBytes k k₀
    · simp [insertSorted, alookup, hlt]
    · by_cases h0 : k = k₀
      · subst h0; simp [insertSorted, alookup, hlt]
      · simp [insertSorted, alookup, hlt, h0, alookup_insertSorted_self k v rest]

theorem alookup_insertSorted_ne {k k' : Bytes} (v : Bytes) (h : k ≠ k') :
    ∀ d : List (Bytes × Bytes), alookup k (insertSorted k' v d) = alookup k d
  | [] => by simp [insertSorted, alookup, h]
  | (k₀, v₀) :: rest => by
    by_cases hlt : ltBytes k' k₀
    · simp [insertSorted, alookup, hlt, h]
    · by_cases h0 : k' = k₀
      · subst h0; simp [insertSorted, alookup, hlt, h]
      · by_cases h1 : k = k₀
        · simp [insertSorted, alookup, hlt, h0, h1]
        · simp [insertSorted, alookup, hlt, h0, h1, alookup_insertSorted_ne v h rest]

theorem all_aset {α β : Type} [DecidableEq α] (f : α × β → Bool) (k : α) (v : β)
    (hv : f (k, v) = true) :
    ∀ {l : List (α × β)}, l.all f = true → (aset k v l).all f = true
  | [], _ => by simp [aset, hv]
  | (k₀, v₀) :: rest, h => by
    rw [List.all_cons, Bool.and_eq_true] at h
    by_cases h0 : k = k₀
    · subst h0
      rw [aset, if_pos rfl, List.all_cons, Bool.and_eq_true]
      exact ⟨hv, h.2⟩
    · rw [aset, if_neg h0, List.all_cons, Bool.and_eq_true]
      exact ⟨h.1, all_aset f k v hv h.2⟩

theorem all_aremove {α β : Type} [DecidableEq α] (f : α × β → Bool) (k : α) :
    ∀ {l : List (α × β)}, l.all f = true → (aremove k l).all f = true
  | [], _ => by simp [aremove]
  | (k₀, v₀) :: rest, h => by
    rw [List.all_cons, Bool.and_eq_true] at h
    by_cases h0 : k = k₀
    · rw [aremove, if_pos h0]
      exact all_aremove f k h.2
    · rw [aremove, if_neg h0, List.all_cons, Bool.and_eq_true]
      exact ⟨h.1, all_aremove f k h.2⟩

theorem all_of_alookup {α β : Type} [DecidableEq α] {f : α × β → Bool} {k : α} {v : β} :
    ∀ {l : List (α × β)}, l.all f = true → alookup k l = some v → f (k, v) = true
  | [], _, h => by simp [alookup] at h
  | (k₀, v₀) :: rest, hall, h => by
    rw [List.all_cons, Bool.and_eq_true] at hall
    by_cases h0 : k = k₀
    · subst h0
      simp [alookup] at h
      subst h
      exact hall.1
    · simp [alookup, h0] at h
      exact all_of_alookup hall.2 h

theorem stateOk_iff (s : State) :
    stateOk s = true ↔
      s.trie.broken = [] ∧ s.cachedAccounts.all (fun p => acctOk p.2) = true := by
  simp [stateOk]

theorem acctOk_of_stateOk {s : State} {addr : Addr} {a : CachedAccount}
    (hok : stateOk s = true) (ha : alookup addr s.cachedAccounts = some a) :
    acctOk a = true :=
  all_of_alookup ((stateOk_iff s).1 hok).2 ha

theorem broken_of_stateOk {s : State} (hok : stateOk s = true) :
    s.trie.broken = [] :=
  ((stateOk_iff s).1 hok).1

theorem rlpStr_ne_nil (b : Bytes) : rlpStr b ≠ [] := by
  rw [rlpStr.eq_def]
  split <;> split <;> simp

theorem encodeAccount_ne_nil (a : Account) : encodeAccount a ≠ [] := by
  rw [encodeAccount, rlpList]
  split <;> simp

/-- Splitting the canonical encoding of a byte string of length at most
55 recovers the string with nothing left over. -/
theorem rlpSplit_rlpStr (w : Bytes) (hw : w.length ≤ 55) :
    rlpSplit (rlpStr w) = .ok (false, w, []) := by
  rcases w with _ | ⟨x, _ | ⟨y, rest⟩⟩
  · simp [rlpStr, rlpSplit]
  · by_cases hx : x < 0x80
    · simp [rlpStr, rlpSplit, hx]
    · simp [rlpStr, rlpSplit, hx]
  · rw [rlpStr.eq_def]
    simp only []
    rw [if_pos hw]
    rw [rlpSplit]
    have hl : (x :: y :: rest).length = rest.length + 2 := by simp
    rw [if_neg (by omega), if_pos (by omega)]
    have h3 : 0x80 + (x :: y :: rest).length - 0x80 = (x :: y :: rest).length := by omega
    rw [h3]
    simp

theorem aset_aset {α β : Type} [DecidableEq α] (k : α) (x y : β) :
    ∀ l : List (α × β), aset k x (aset k y l) = aset k x l
  | [] => by simp [aset]
  | (k₀, v₀) :: rest => by
    by_cases h : k = k₀
    · simp [aset, h]
    · simp [aset, h, aset_aset k x y rest]

theorem getTrie_ok {s : State} {addr : Addr} {a : CachedAccount}
    (ha : alookup addr s.cachedAccounts = some a) (hacct : acctOk a = true) :
    ∃ t₀, baseStorageTrie a s.kv = .ok t₀ ∧ t₀.broken = [] ∧
      s.getTrie addr = (.ok t₀, setAcct s addr { a with storageTrie := some t₀ }) := by
  rcases htr : a.storageTrie with _ | t
  · have hroot : a.storageRoot = zeroHash := by
      unfold acctOk at hacct
      rw [htr] at hacct
      simpa using hacct
    refine ⟨⟨[], []⟩, ?_, rfl, ?_⟩
    · rw [baseStorageTrie, htr, newSecure, if_pos hroot]
    · rw [State.getTrie, ha]
      simp only [htr]
      rw [newSecure, if_pos hroot]
      rfl
  · have hbr : t.broken = [] := by
      unfold acctOk at hacct
      rw [htr] at hacct
      simpa using hacct
    refine ⟨t, ?_, hbr, ?_⟩
    · rw [baseStorageTrie, htr]
    · rw [State.getTrie, ha]
      simp only [htr]
      have haa : { a with storageTrie := some t } = a := by
        cases a
        simp_all
      rw [setAcct, haa, aset_eq_of_alookup ha]

theorem updateStorageLoop_ok :
    ∀ (pend : List (Hash × Hash)) (t : SecureTrie), t.broken = [] →
      updateStorageLoop t pend =
        (true,
         ⟨pend.foldl (fun d kv => insertSorted kv.1 (rlpStr (kv.2.dropWhile (· = 0))) d) t.data,
          t.broken⟩,
         [])
  | [], t, ht => rfl
  | (key, value) :: rest, t, ht => by
    rw [updateStorageLoop]
    have hupd : t.tryUpdate key (rlpStr (value.dropWhile (· = 0))) =
        .ok { t with data := insertSorted key (rlpStr (value.dropWhile (· = 0))) t.data } := by
      rw [SecureTrie.tryUpdate, if_neg (by simp [ht]), if_neg (rlpStr_ne_nil _)]
    rw [hupd]
    simp only []
    rw [updateStorageLoop_ok rest _ (by simp [ht])]
    simp

theorem updateStorage_ok {s : State} {addr : Addr} {a : CachedAccount}
    (ha : alookup addr s.cachedAccounts = some a) (hacct : acctOk a = true) :
    ∃ t₀, baseStorageTrie a s.kv = .ok t₀ ∧ t₀.broken = [] ∧
      s.updateStorage addr =
        (some (flushedTrie a t₀), none,
         setAcct s addr { a with storage := [], storageTrie := some (flushedTrie a t₀) }) := by
  obtain ⟨t₀, hbase, hbr, hgt⟩ := getTrie_ok ha hacct
  refine ⟨t₀, hbase, hbr, ?_⟩
  rw [State.updateStorage, hgt]
  simp only [setAcct, alookup_aset_self]
  rw [updateStorageLoop_ok _ _ hbr]
  simp only []
  rw [aset_aset]
  rfl

theorem syncStorage_ok {s : State} {addr : Addr} {a : CachedAccount}
    (ha : alookup addr s.cachedAccounts = some a) (hacct : acctOk a = true) :
    ∃ t₀, baseStorageTrie a s.kv = .ok t₀ ∧ t₀.broken = [] ∧
      s.syncStorage addr a =
        .synced (setAcct s addr (syncedAcct a t₀)) (syncedAcct a t₀) := by
  obtain ⟨t₀, hbase, hbr, hus⟩ := updateStorage_ok ha hacct
  refine ⟨t₀, hbase, hbr, ?_⟩
  rw [State.syncStorage, hus]
  simp only [setAcct, alookup_aset_self, Option.getD_some]
  rw [aset_aset]
  rfl

theorem updateAccount_ok {s : State} (addr : Addr) (a : CachedAccount)
    (hbr : s.trie.broken = []) :
    s.updateAccount addr a =
      (none,
       { s with trie :=
           ⟨insertSorted addr (encodeAccount ⟨a.balance, a.codeHash, a.storageRoot⟩)
              s.trie.data,
            s.trie.broken⟩ }) := by
  simp [State.updateAccount, SecureTrie.tryUpdate, hbr, encodeAccount_ne_nil]

theorem delete_ok {s : State} (addr : Addr) (hbr : s.trie.broken = []) :
    s.delete addr =
      ⟨⟨aremove addr s.trie.data, s.trie.broken⟩, s.kv,
       aremove addr s.cachedAccounts, s.err⟩ := by
  simp [State.delete, SecureTrie.tryDelete, hbr]

theorem rootBody_none {s : State} {addr : Addr}
    (h : alookup addr s.cachedAccounts = none) : s.rootBody addr = .cont s := by
  simp only [State.rootBody, h]

theorem rootBody_empty {s : State} {addr : Addr} {a : CachedAccount}
    (h : alookup addr s.cachedAccounts = some a) (he : isEmpty a = true) :
    s.rootBody addr = .cont (s.delete addr) := by
  simp only [State.rootBody, h]
  rw [if_pos he]

theorem rootBody_clean {s : State} {addr : Addr} {a : CachedAccount}
    (h : alookup addr s.cachedAccounts = some a) (he : isEmpty a = false)
    (hset : a.storageStep ≠ .storageSet) (hd : a.isDirty = false) :
    s.rootBody addr = .cont s := by
  simp only [State.rootBody, h]
  rw [if_neg (by simp [he]), if_neg hset]
  simp only []
  rw [if_neg (by simp [hd])]

theorem rootBody_dirty {s : State} {addr : Addr} {a : CachedAccount} {s₂ : State}
    (h : alookup addr s.cachedAccounts = some a) (he : isEmpty a = false)
    (hset : a.storageStep ≠ .storageSet) (hd : a.isDirty = true)
    (hupd : s.updateAccount addr a = (none, s₂)) :
    s.rootBody addr = .cont (setAcct s₂ addr { a with isDirty := false }) := by
  simp only [State.rootBody, h]
  rw [if_neg (by simp [he]), if_neg hset]
  simp only []
  rw [if_pos hd, hupd]
  rfl

theorem rootBody_sync {s : State} {addr : Addr} {a a₁ : CachedAccount} {s₁ s₂ : State}
    (h : alookup addr s.cachedAccounts = some a) (he : isEmpty a = false)
    (hset : a.storageStep = .storageSet)
    (hsync : s.syncStorage addr a = .synced s₁ a₁) (hd : a₁.isDirty = true)
    (hupd : s₁.updateAccount addr a₁ = (none, s₂)) :
    s.rootBody addr = .cont (setAcct s₂ addr { a₁ with isDirty := false }) := by
  simp only [State.rootBody, h]
  rw [if_neg (by simp [he]), if_pos hset, hsync]
  simp only []
  rw [if_pos hd, hupd]
  rfl

theorem rootBody_cont (s : State) (addr : Addr) (hok : stateOk s = true) :
    ∃ s', s.rootBody addr = .cont s' ∧ stateOk s' = true ∧
      s'.kv = s.kv ∧ s'.err = s.err ∧
      (∀ k, k ≠ addr → alookup k s'.cachedAccounts = alookup k s.cachedAccounts) ∧
      (∀ k, k ≠ addr → alookup k s'.trie.data = alookup k s.trie.data) ∧
      (∀ a', alookup addr s'.cachedAccounts = some a' → doneAcct a' = true) ∧
      (∀ a, alookup addr s.cachedAccounts = some a → isEmpty a = true →
        alookup addr s'.cachedAccounts = none ∧ alookup addr s'.trie.data = none) ∧
      (alookup addr s.cachedAccounts = none → s' = s) ∧
      (∀ a, alookup addr s.cachedAccounts = some a → doneAcct a = true → s' = s) ∧
      (∀ a, alookup addr s.cachedAccounts = some a → isEmpty a = false →
        a.storageStep = .storageSet →
        ∃ t₀, baseStorageTrie a s.kv = .ok t₀ ∧ t₀.broken = [] ∧
          alookup addr s'.cachedAccounts = some { syncedAcct a t₀ with isDirty := false }) := by
  have hbroken := broken_of_stateOk hok
  have hall := ((stateOk_iff s).1 hok).2
  rcases hla : alookup addr s.cachedAccounts with _ | a
  · refine ⟨s, rootBody_none hla, hok, rfl, rfl, fun k _ => rfl, fun k _ => rfl,
      ?_, ?_, fun _ => rfl, ?_, ?_⟩
    · intro a' ha'
      rw [hla] at ha'
      simp at ha'
    · intro a ha
      simp at ha
    · intro a ha
      simp at ha
    · intro a ha
      simp at ha
  · have hacct := acctOk_of_stateOk hok hla
    by_cases hemp : isEmpty a = true
    · have hdel := delete_ok (s := s) addr hbroken
      refine ⟨s.delete addr, rootBody_empty hla hemp, ?_, ?_, ?_, ?_, ?_, ?_, ?_, ?_, ?_, ?_⟩
      · rw [hdel, stateOk_iff]
        exact ⟨hbroken, all_aremove _ _ hall⟩
      · rw [hdel]
      · rw [hdel]
      · intro k hk
        rw [hdel]
        exact alookup_aremove_ne hk _
      · intro k hk
        rw [hdel]
        exact alookup_aremove_ne hk _
      · intro a' ha'
        rw [hdel] at ha'
        simp [alookup_aremove_self] at ha'
      · intro a₀ _ _
        rw [hdel]
        exact ⟨alookup_aremove_self _ _, alookup_aremove_self _ _⟩
      · intro h
        simp at h
      · intro a₀ ha₀ hdone
        injection ha₀ with ha₀
        subst ha₀
        rw [doneAcct, hemp] at hdone
        simp at hdone
      · intro a₀ ha₀ hemp₀
        injection ha₀ with ha₀
        subst ha₀
        rw [hemp₀] at hemp
        simp at hemp
    · replace hemp : isEmpty a = false := by simp at hemp; simp [hemp]
      by_cases hset : a.storageStep = .storageSet
      · obtain ⟨t₀, hbase, hbr0, hsync⟩ := syncStorage_ok hla hacct
        have hupd := updateAccount_ok (s := setAcct s addr (syncedAcct a t₀)) addr
          (syncedAcct a t₀) hbroken
        have hbody := rootBody_sync hla hemp hset hsync rfl hupd
        refine ⟨_, hbody, ?_, rfl, rfl, ?_, ?_, ?_, ?_, ?_, ?_, ?_⟩
        · rw [stateOk_iff]
          constructor
          · exact hbroken
          · show (aset addr _ (aset addr _ s.cachedAccounts)).all _ = true
            rw [aset_aset]
            refine all_aset _ _ _ ?_ hall
            show acctOk _ = true
            rw [acctOk]
            simp only [syncedAcct]
            simpa using hbr0
        · intro k hk
          show alookup k (aset addr _ (aset addr _ s.cachedAccounts)) = _
          rw [aset_aset, alookup_aset_ne _ hk]
        · intro k hk
          show alookup k (insertSorted addr _ s.trie.data) = _
          rw [alookup_insertSorted_ne _ hk]
        · intro a' ha'
          simp only [setAcct, alookup_aset_self] at ha'
          injection ha' with ha'
          subst ha'
          rw [doneAcct]
          have h1 : isEmpty { syncedAcct a t₀ with isDirty := false } = isEmpty a := rfl
          rw [h1, hemp]
          rfl
        · intro a₀ ha₀ hemp₀
          injection ha₀ with ha₀
          subst ha₀
          rw [hemp₀] at hemp
          simp at hemp
        · intro h
          simp at h
        · intro a₀ ha₀ hdone
          injection ha₀ with ha₀
          subst ha₀
          rw [doneAcct, hset] at hdone
          simp at hdone
        · intro a₀ ha₀ _ _
          injection ha₀ with ha₀
          subst ha₀
          refine ⟨t₀, hbase, hbr0, ?_⟩
          simp only [setAcct, alookup_aset_self]
      · by_cases hd : a.isDirty = true
        · have hupd := updateAccount_ok (s := s) addr a hbroken
          have hbody := rootBody_dirty hla hemp hset hd hupd
          refine ⟨_, hbody, ?_, rfl, rfl, ?_, ?_, ?_, ?_, ?_, ?_, ?_⟩
          · rw [stateOk_iff]
            refine ⟨hbroken, ?_⟩
            show (aset addr { a with isDirty := false } s.cachedAccounts).all _ = true
            refine all_aset _ _ _ ?_ hall
            show acctOk { a with isDirty := false } = true
            rw [acctOk] at hacct ⊢
            exact hacct
          · intro k hk
            show alookup k (aset addr _ s.cachedAccounts) = _
            rw [alookup_aset_ne _ hk]
          · intro k hk
            show alookup k (insertSorted addr _ s.trie.data) = _
            rw [alookup_insertSorted_ne _ hk]
          · intro a' ha'
            simp only [setAcct, alookup_aset_self] at ha'
            injection ha' with ha'
            subst ha'
            rw [doneAcct]
            have h1 : isEmpty { a with isDirty := false } = isEmpty a := rfl
            rw [h1, hemp]
            simp [hset]
          · intro a₀ ha₀ hemp₀
            injection ha₀ with ha₀
            subst ha₀
            rw [hemp₀] at hemp
            simp at hemp
          · intro h
            simp at h
          · intro a₀ ha₀ hdone
            injection ha₀ with ha₀
            subst ha₀
            rw [doneAcct, hd] at hdone
            simp at hdone
          · intro a₀ ha₀ _ hset₀
            injection ha₀ with ha₀
            subst ha₀
            exact absurd hset₀ hset
        · replace hd : a.isDirty = false := by simp at hd; simp [hd]
          refine ⟨s, rootBody_clean hla hemp hset hd, hok, rfl, rfl,
            fun k _ => rfl, fun k _ => rfl, ?_, ?_, ?_, fun _ _ _ => rfl, ?_⟩
          · intro a' ha'
            rw [hla] at ha'
            injection ha' with ha'
            subst ha'
            rw [doneAcct, hemp, hd]
            simp [hset]
          · intro a₀ ha₀ hemp₀
            injection ha₀ with ha₀
            subst ha₀
            rw [hemp₀] at hemp
            simp at hemp
          · intro h
            simp at h
          · intro a₀ ha₀ _ hset₀
            injection ha₀ with ha₀
            subst ha₀
            exact absurd hset₀ hset

theorem rootLoop_ok : ∀ (addrs : List Addr) (s : State), stateOk s = true →
    ∃ s', s.rootLoop addrs = (.ok (trieDigest s'.trie), s') ∧ stateOk s' = true ∧
      s'.kv = s.kv ∧ s'.err = s.err
  | [], s, hok => ⟨s, rfl, hok, rfl, rfl⟩
  | addr :: rest, s, hok => by
    obtain ⟨s₁, hbody, hok₁, hkv, herr, -, -, -, -, -, -, -⟩ := rootBody_cont s addr hok
    obtain ⟨s', hloop, hok', hkv', herr'⟩ := rootLoop_ok rest s₁ hok₁
    refine ⟨s', ?_, hok', by rw [hkv', hkv], by rw [herr', herr]⟩
    rw [State.rootLoop, hbody]
    exact hloop

theorem rootLoop_gone : ∀ (addrs : List Addr) (s : State) (addr : Addr),
    stateOk s = true →
    alookup addr s.cachedAccounts = none → alookup addr s.trie.data = none →
    alookup addr (s.rootLoop addrs).2.cachedAccounts = none ∧
    alookup addr (s.rootLoop addrs).2.trie.data = none
  | [], _, _, _, hc, ht => ⟨hc, ht⟩
  | a₀ :: rest, s, addr, hok, hc, ht => by
    obtain ⟨s₁, hbody, hok₁, -, -, hfc, hft, -, -, hnone, -, -⟩ := rootBody_cont s a₀ hok
    rw [State.rootLoop, hbody]
    by_cases he : addr = a₀
    · subst he
      rw [hnone hc]
      exact rootLoop_gone rest s addr hok hc ht
    · exact rootLoop_gone rest s₁ addr hok₁ ((hfc addr he).trans hc) ((hft addr he).trans ht)

theorem rootLoop_prunes : ∀ (addrs : List Addr) (s : State) (addr : Addr)
    (a : CachedAccount), stateOk s = true →
    addr ∈ addrs → alookup addr s.cachedAccounts = some a → isEmpty a = true →
    alookup addr (s.rootLoop addrs).2.cachedAccounts = none ∧
    alookup addr (s.rootLoop addrs).2.trie.data = none
  | [], _, _, _, _, hmem, _, _ => absurd hmem (List.not_mem_nil _)
  | a₀ :: rest, s, addr, a, hok, hmem, ha, hemp => by
    obtain ⟨s₁, hbody, hok₁, -, -, hfc, -, -, hgone, -, -, -⟩ := rootBody_cont s a₀ hok
    rw [State.rootLoop, hbody]
    by_cases he : addr = a₀
    · subst he
      obtain ⟨h1, h2⟩ := hgone a ha hemp
      exact rootLoop_gone rest s₁ addr hok₁ h1 h2
    · have hmem' : addr ∈ rest := by
        rcases List.mem_cons.1 hmem with h | h
        · exact absurd h he
        · exact h
      exact rootLoop_prunes rest s₁ addr a hok₁ hmem' ((hfc addr he).trans ha) hemp

theorem rootLoop_all_done : ∀ (addrs : List Addr) (s : State), stateOk s = true →
    (∀ k a, alookup k s.cachedAccounts = some a → doneAcct a = true ∨ k ∈ addrs) →
    ∀ k a, alookup k (s.rootLoop addrs).2.cachedAccounts = some a → doneAcct a = true
  | [], s, hok, hinv, k, a, ha => by
    rcases hinv k a ha with h | h
    · exact h
    · simp at h
  | a₀ :: rest, s, hok, hinv, k, a, ha => by
    obtain ⟨s₁, hbody, hok₁, -, -, hfc, -, hdone, -, -, -, -⟩ := rootBody_cont s a₀ hok
    rw [State.rootLoop, hbody] at ha
    refine rootLoop_all_done rest s₁ hok₁ ?_ k a ha
    intro k' a' ha'
    by_cases he : k' = a₀
    · subst he
      exact Or.inl (hdone a' ha')
    · rw [hfc k' he] at ha'
      rcases hinv k' a' ha' with h | h
      · exact Or.inl h
      · rcases List.mem_cons.1 h with h | h
        · exact absurd h he
        · exact Or.inr h

theorem rootLoop_noop : ∀ (addrs : List Addr) (s : State),
    (∀ k a, alookup k s.cachedAccounts = some a → doneAcct a = true) →
    s.rootLoop addrs = (.ok (trieDigest s.trie), s)
  | [], _, _ => rfl
  | a₀ :: rest, s, hdone => by
    rcases hla : alookup a₀ s.cachedAccounts with _ | a
    · rw [State.rootLoop, rootBody_none hla]
      exact rootLoop_noop rest s hdone
    · have hd := hdone a₀ a hla
      rw [doneAcct] at hd
      simp only [Bool.and_eq_true, Bool.not_eq_true'] at hd
      obtain ⟨⟨h1, h2⟩, h3⟩ := hd
      rw [State.rootLoop, rootBody_clean hla h1 (by simpa using h2) h3]
      exact rootLoop_noop rest s hdone

theorem rootLoop_preserves_entry : ∀ (addrs : List Addr) (s : State) (addr : Addr)
    (a : CachedAccount), stateOk s = true →
    alookup addr s.cachedAccounts = some a → doneAcct a = true →
    alookup addr (s.rootLoop addrs).2.cachedAccounts = some a
  | [], _, _, _, _, ha, _ => ha
  | a₀ :: rest, s, addr, a, hok, ha, hd => by
    obtain ⟨s₁, hbody, hok₁, -, -, hfc, -, -, -, -, hnoop, -⟩ := rootBody_cont s a₀ hok
    rw [State.rootLoop, hbody]
    by_cases he : addr = a₀
    · subst he
      rw [hnoop a ha hd]
      exact rootLoop_preserves_entry rest s addr a hok ha hd
    · exact rootLoop_preserves_entry rest s₁ addr a hok₁ ((hfc addr he).trans ha) hd

theorem rootLoop_pending : ∀ (addrs : List Addr) (s : State) (addr : Addr)
    (a : CachedAccount), stateOk s = true →
    addr ∈ addrs → alookup addr s.cachedAccounts = some a →
    isEmpty a = false → a.storageStep = .storageSet →
    ∃ t₀, baseStorageTrie a s.kv = .ok t₀ ∧ t₀.broken = [] ∧
      alookup addr (s.rootLoop addrs).2.cachedAccounts =
        some { syncedAcct a t₀ with isDirty := false }
  | [], _, _, _, _, hmem, _, _, _ => absurd hmem (List.not_mem_nil _)
  | a₀ :: rest, s, addr, a, hok, hmem, ha, hemp, hset => by
    obtain ⟨s₁, hbody, hok₁, hkv, -, hfc, -, -, -, -, -, hpend⟩ := rootBody_cont s a₀ hok
    rw [State.rootLoop, hbody]
    by_cases he : addr = a₀
    · subst he
      obtain ⟨t₀, hbase, hbr0, hentry⟩ := hpend a ha hemp hset
      have hdone₃ : doneAcct { syncedAcct a t₀ with isDirty := false } = true := by
        rw [doneAcct]
        have h1 : isEmpty { syncedAcct a t₀ with isDirty := false } = isEmpty a := rfl
        rw [h1, hemp]
        rfl
      exact ⟨t₀, hbase, hbr0,
        rootLoop_preserves_entry rest s₁ addr _ hok₁ hentry hdone₃⟩
    · obtain ⟨t₀, hbase, hbr0, hres⟩ :=
        rootLoop_pending rest s₁ addr a hok₁
          (by rcases List.mem_cons.1 hmem with h | h
              · exact absurd h he
              · exact h)
          ((hfc addr he).trans ha) hemp hset
      rw [hkv] at hbase
      exact ⟨t₀, hbase, hbr0, hres⟩

theorem alookup_aremove_of_none {α β : Type} [DecidableEq α] {k a : α}
    {l : List (α × β)} (h : alookup k l = none) :
    alookup k (aremove a l) = none := by
  by_cases he : k = a
  · subst he
    exact alookup_aremove_self k l
  · rw [alookup_aremove_ne he]
    exact h

theorem commitVisit_ok {s : State} (addr : Addr) (hok : stateOk s = true) :
    ∃ s', s.commitVisit addr = .ok s' ∧ stateOk s' = true ∧
      s'.trie = s.trie ∧
      (∀ k, alookup k s.cachedAccounts = none → alookup k s'.cachedAccounts = none) := by
  have hall := ((stateOk_iff s).1 hok).2
  rcases hla : alookup addr s.cachedAccounts with _ | a
  · refine ⟨s, ?_, hok, rfl, fun _ h => h⟩
    simp only [State.commitVisit, hla]
  · have hacct := acctOk_of_stateOk hok hla
    by_cases hu : a.storageStep = .storageUpdated
    · obtain ⟨t₀, hbase, hbr0, hgt⟩ := getTrie_ok hla hacct
      refine ⟨State.mk s.trie ((t₀.commit s.kv).2)
          (aremove addr (aset addr { a with storageTrie := some t₀ } s.cachedAccounts))
          s.err, ?_, ?_, rfl, ?_⟩
      · simp only [State.commitVisit, hla]
        rw [if_pos hu, hgt]
        rfl
      · rw [stateOk_iff]
        refine ⟨show s.trie.broken = [] from broken_of_stateOk hok, ?_⟩
        show (aremove addr (aset addr _ s.cachedAccounts)).all _ = true
        refine all_aremove _ _ (all_aset _ _ _ ?_ hall)
        show acctOk { a with storageTrie := some t₀ } = true
        rw [acctOk]
        simpa using hbr0
      · intro k h
        have hk : k ≠ addr := by
          intro he
          rw [he, hla] at h
          cases h
        show alookup k (aremove addr (aset addr _ s.cachedAccounts)) = none
        exact alookup_aremove_of_none (by rw [alookup_aset_ne _ hk]; exact h)
    · refine ⟨State.mk s.trie s.kv (aremove addr s.cachedAccounts) s.err, ?_, ?_, rfl, ?_⟩
      · simp only [State.commitVisit, hla]
        rw [if_neg hu]
      · rw [stateOk_iff]
        exact ⟨show s.trie.broken = [] from broken_of_stateOk hok,
          show (aremove addr s.cachedAccounts).all _ = true from all_aremove _ _ hall⟩
      · intro k h
        exact alookup_aremove_of_none h

theorem commitLoop_ok : ∀ (addrs : List Addr) (s : State), stateOk s = true →
    ∃ s', s.commitLoop addrs = .ok s' ∧ stateOk s' = true ∧ s'.trie = s.trie ∧
      (∀ k, alookup k s.cachedAccounts = none → alookup k s'.cachedAccounts = none)
  | [], s, hok => ⟨s, rfl, hok, rfl, fun _ h => h⟩
  | a₀ :: rest, s, hok => by
    obtain ⟨s₁, hv, hok₁, htr₁, hpres₁⟩ := commitVisit_ok a₀ hok
    obtain ⟨s', hl, hok', htr', hpres'⟩ := commitLoop_ok rest s₁ hok₁
    refine ⟨s', ?_, hok', htr'.trans htr₁, fun k h => hpres' k (hpres₁ k h)⟩
    rw [State.commitLoop, hv]
    exact hl

/-- After `Root()` (and after `Commit()`) an account that was cached and
empty is gone from the cache and the global trie, and `Exists` reports
false. -/
theorem prune_exists_false {s : State} {addr : Addr} {a : CachedAccount}
    (hok : stateOk s = true) (ha : alookup addr s.cachedAccounts = some a)
    (hemp : isEmpty a = true) :
    alookup addr (s.root).2.cachedAccounts = none ∧
    alookup addr (s.root).2.trie.data = none ∧
    ((s.root).2.exists' addr).1 = false ∧
    ((s.commit).2.exists' addr).1 = false := by
  obtain ⟨s₁, hroot, hok₁, hkv₁, herr₁⟩ := rootLoop_ok (s.cachedAccounts.map Prod.fst) s hok
  have hmem := mem_map_fst_of_alookup ha
  obtain ⟨h1, h2⟩ := rootLoop_prunes (s.cachedAccounts.map Prod.fst) s addr a hok hmem ha hemp
  have hR : s.root = (.ok (trieDigest s₁.trie), s₁) := hroot
  rw [hroot] at h1 h2
  have hbrk₁ := broken_of_stateOk hok₁
  have hx1 : (s₁.exists' addr).1 = false := by
    simp [State.exists', h1, SecureTrie.tryGet, hbrk₁, h2]
  obtain ⟨s₂, hcl, hok₂, htr₂, hpres₂⟩ :=
    commitLoop_ok (s₁.cachedAccounts.map Prod.fst) s₁ hok₁
  have hC0 : s.commit = s₁.commitFinish := by
    rw [State.commit, hR]
  have hC : s.commit = (.ok (trieDigest s₂.trie), { s₂ with kv := (s₂.trie.commit s₂.kv).2 }) := by
    rw [hC0, State.commitFinish, hcl]
    rfl
  refine ⟨by rw [hR]; exact h1, by rw [hR]; exact h2, by rw [hR]; exact hx1, ?_⟩
  rw [hC]
  have hc1 : alookup addr s₂.cachedAccounts = none := hpres₂ addr h1
  have hc2 : alookup addr s₂.trie.data = none := by rw [htr₂]; exact h2
  have hcb : s₂.trie.broken = [] := by rw [htr₂]; exact hbrk₁
  simp [State.exists', hc1, SecureTrie.tryGet, hcb, hc2]

theorem alookup_flushFold_notmem :
    ∀ (pend : List (Hash × Hash)) (d : List (Bytes × Bytes)) (k : Bytes),
      k ∉ pend.map Prod.fst →
      alookup k
        (pend.foldl (fun d kv => insertSorted kv.1 (rlpStr (kv.2.dropWhile (· = 0))) d) d) =
        alookup k d
  | [], _, _, _ => rfl
  | (k₀, v₀) :: rest, d, k, hk => by
    simp only [List.map_cons, List.mem_cons, not_or] at hk
    rw [List.foldl_cons]
    rw [alookup_flushFold_notmem rest _ k hk.2]
    exact alookup_insertSorted_ne _ hk.1 d

theorem alookup_flushFold_mem :
    ∀ (pend : List (Hash × Hash)) (d : List (Bytes × Bytes)) (k v : Hash),
      (pend.map Prod.fst).Nodup → (k, v) ∈ pend →
      alookup k
        (pend.foldl (fun d kv => insertSorted kv.1 (rlpStr (kv.2.dropWhile (· = 0))) d) d) =
        some (rlpStr (v.dropWhile (· = 0)))
  | [], _, _, _, _, hmem => absurd hmem (List.not_mem_nil _)
  | (k₀, v₀) :: rest, d, k, v, hnd, hmem => by
    rw [List.map_cons, List.nodup_cons] at hnd
    rw [List.foldl_cons]
    rcases List.mem_cons.1 hmem with h | h
    · cases h
      rw [alookup_flushFold_notmem rest _ k₀ hnd.1]
      exact alookup_insertSorted_self _ _ _
    · exact alookup_flushFold_mem rest _ k v hnd.2 h

theorem setStorage_eq {s : State} {addr : Addr} {a : CachedAccount} {s₀ : State}
    (hga : s.getAccount addr = (.ok a, s₀)) (key value : Hash) :
    s.setStorage addr key value =
      setAcct s₀ addr { a with storageStep := .storageSet, storage := aset key value a.storage } := by
  rw [State.setStorage, hga]
  rfl

/-- C1: `SetStorage(addr, k, v)` followed by `GetStorage(addr, k)` on the
same state view, with no intervening `Root()`/`Commit()`, returns exactly
`v`; the overlay serves the read without a storage-trie round-trip (the
state comes back completely unchanged). -/
theorem storage_set_get_roundtrip (s : State) (addr : Addr) (key value : Hash)
    (h : ∃ a s₀, s.getAccount addr = (.ok a, s₀)) :
    (s.setStorage addr key value).getStorage addr key =
      (value, s.setStorage addr key value) := by
  obtain ⟨a, s₀, hga⟩ := h
  rw [setStorage_eq hga]
  rw [State.getStorage]
  simp only [setAcct, alookup_aset_self]

/-- Witness for C1 at a fresh state view over an empty store. -/
theorem storage_set_get_roundtrip_witness :
    (emptyState.setStorage wAddr wKey wVal).getStorage wAddr wKey =
      (wVal, emptyState.setStorage wAddr wKey wVal) :=
  storage_set_get_roundtrip emptyState wAddr wKey wVal
    ⟨freshAccount, setAcct emptyState wAddr freshAccount, rfl⟩

/-- C2: for every cached account with zero balance and no code, `Root()`
deletes it from the cache and deletes it from the global trie, so that
`Exists` returns false after `Root()` and after `Commit()` — also when
the account previously existed in the trie (the state is arbitrary, so
the global trie may hold an entry for the address). -/
theorem root_prunes_empty_account (s : State) (addr : Addr) (a : CachedAccount)
    (hok : stateOk s = true)
    (ha : alookup addr s.cachedAccounts = some a)
    (hemp : isEmpty a = true) :
    alookup addr (s.root).2.cachedAccounts = none ∧
    alookup addr (s.root).2.trie.data = none ∧
    ((s.root).2.exists' addr).1 = false ∧
    ((s.commit).2.exists' addr).1 = false :=
  prune_exists_false hok ha hemp

/-- Witness for C2: the account exists before the call and is pruned by
`Root()`. -/
theorem root_prunes_empty_account_witness :
    stateOk prevState = true ∧
    alookup wAddr prevState.cachedAccounts = some prevAcct ∧
    isEmpty prevAcct = true ∧
    (prevState.exists' wAddr).1 = true ∧
    (alookup wAddr (prevState.root).2.cachedAccounts = none ∧
     alookup wAddr (prevState.root).2.trie.data = none ∧
     ((prevState.root).2.exists' wAddr).1 = false ∧
     ((prevState.commit).2.exists' wAddr).1 = false) :=
  ⟨by decide, by decide, by decide, by decide,
   root_prunes_empty_account prevState wAddr prevAcct (by decide) (by decide) (by decide)⟩

/-- C3 (bug demonstration): when a storage-trie update fails while
`Root()` flushes a Pending account's overlay, the source assigns the
shadowing nil `err` to the fault flag (erasing the error recorded
before the call) and returns a nil trie with a nil error, so `Root()`
dereferences the nil trie — a runtime panic — instead of recording the
failure and returning the zero-hash sentinel. -/
theorem root_storage_fault_mishandled :
    (faultState.root).1 = Outcome.crashed ∧
    (faultState.root).2.err = none ∧
    faultState.err = some (.store [1]) := by
  decide

/-- C4 (amended): every failing accessor records *its own* error on the
fault flag — overwriting whatever was recorded before, whatever `s.err`
was — and returns the zero-valued default. -/
theorem error_flag_records_latest (s : State) (addr : Addr) (key : Hash)
    (hnc : alookup addr s.cachedAccounts = none)
    (hbr : addr ∈ s.trie.broken) :
    s.getBalance addr = (0, { s with err := some (.trieRead addr) }) ∧
    s.getStorage addr key = (zeroHash, { s with err := some (.trieRead addr) }) := by
  have hga : s.getAccount addr =
      (.error (.trieRead addr), { s with err := some (.trieRead addr) }) := by
    rw [State.getAccount, hnc]
    simp only [SecureTrie.tryGet, if_pos hbr]
  constructor
  · rw [State.getBalance, hga]
  · rw [State.getStorage, hnc]
    simp only []
    rw [State.getStorageSlow, hga]

/-- Witness for C4's amended statement. -/
theorem error_flag_records_latest_witness :
    alookup wAddr brokenState.cachedAccounts = none ∧
    wAddr ∈ brokenState.trie.broken ∧
    (brokenState.getBalance wAddr = (0, { brokenState with err := some (.trieRead wAddr) }) ∧
     brokenState.getStorage wAddr wKey =
       (zeroHash, { brokenState with err := some (.trieRead wAddr) })) :=
  ⟨by decide, by decide, error_flag_records_latest brokenState wAddr wKey (by decide) (by decide)⟩

/-- C4 counterexample: after two failing reads the fault flag holds the
*second* error, not the first — the first error encountered is not the
one `Error()` reports. -/
theorem error_flag_last_wins_counterexample :
    ((brokenState.getBalance wAddr).2.err = some (.trieRead wAddr)) ∧
    (((brokenState.getBalance wAddr).2.getBalance wAddr2).2.err = some (.trieRead wAddr2)) ∧
    Err.trieRead wAddr2 ≠ Err.trieRead wAddr := by
  decide

/-- C5 (amended): on an overlay miss `GetStorage` falls through to the
account's storage trie, creating the lazy handle if absent.  For a key
present in the trie it decodes the stored value, writes it back into the
overlay, and an immediately repeated read is served from the overlay.
For an absent key it returns the zero hash *without* writing it back:
the state is returned unchanged, so a repeated read hits the trie
again. -/
theorem getStorage_trie_fallthrough (s : State) (addr : Addr) (key : Hash)
    (a : CachedAccount)
    (ha : alookup addr s.cachedAccounts = some a)
    (hmiss : alookup key a.storage = none) :
    (∀ t, a.storageTrie = some t → t.broken = [] →
      (alookup key t.data = none → s.getStorage addr key = (zeroHash, s)) ∧
      (∀ w, alookup key t.data = some (rlpStr w) → w.length ≤ 55 →
        s.getStorage addr key =
          (bytesToHash w,
           setAcct s addr { a with storage := aset key (bytesToHash w) a.storage }) ∧
        (setAcct s addr { a with storage := aset key (bytesToHash w) a.storage }).getStorage
            addr key =
          (bytesToHash w,
           setAcct s addr { a with storage := aset key (bytesToHash w) a.storage }))) ∧
    (a.storageTrie = none → a.storageRoot = zeroHash →
      s.getStorage addr key =
        (zeroHash, setAcct s addr { a with storageTrie := some ⟨[], []⟩ })) := by
  have hga : s.getAccount addr = (.ok a, s) := by
    rw [State.getAccount, ha]
  constructor
  · intro t ht hbr
    have hgt : s.getTrie addr = (.ok t, s) := by
      rw [State.getTrie, ha]
      simp only [ht]
    constructor
    · intro habs
      rw [State.getStorage, ha]
      simp only [hmiss]
      rw [State.getStorageSlow, hga]
      simp only []
      rw [hgt]
      simp only [SecureTrie.tryGet, hbr]
      simp [habs]
    · intro w hpres hw
      have hmain : s.getStorage addr key =
          (bytesToHash w,
           setAcct s addr { a with storage := aset key (bytesToHash w) a.storage }) := by
        rw [State.getStorage, ha]
        simp only [hmiss]
        rw [State.getStorageSlow, hga]
        simp only []
        rw [hgt]
        simp only [SecureTrie.tryGet, hbr]
        simp only [List.mem_nil_iff, if_false, hpres, Option.getD_some]
        rw [if_neg (rlpStr_ne_nil w), rlpSplit_rlpStr w hw]
        simp only [ha]
        rfl
      refine ⟨hmain, ?_⟩
      rw [State.getStorage]
      simp only [setAcct, alookup_aset_self]
  · intro ht hroot
    have hgt : s.getTrie addr =
        (.ok ⟨[], []⟩, setAcct s addr { a with storageTrie := some ⟨[], []⟩ }) := by
      rw [State.getTrie, ha]
      simp only [ht]
      rw [newSecure, if_pos hroot]
      rfl
    rw [State.getStorage, ha]
    simp only [hmiss]
    rw [State.getStorageSlow, hga]
    simp only []
    rw [hgt]
    rfl

/-- Witness for C5's amended statement. -/
theorem getStorage_trie_fallthrough_witness :
    alookup wAddr c5State.cachedAccounts = some c5Acct ∧
    alookup wKey2 c5Acct.storage = none ∧
    ((∀ t, c5Acct.storageTrie = some t → t.broken = [] →
      (alookup wKey2 t.data = none → c5State.getStorage wAddr wKey2 = (zeroHash, c5State)) ∧
      (∀ w, alookup wKey2 t.data = some (rlpStr w) → w.length ≤ 55 →
        c5State.getStorage wAddr wKey2 =
          (bytesToHash w,
           setAcct c5State wAddr { c5Acct with storage := aset wKey2 (bytesToHash w) c5Acct.storage }) ∧
        (setAcct c5State wAddr { c5Acct with storage := aset wKey2 (bytesToHash w) c5Acct.storage }).getStorage
            wAddr wKey2 =
          (bytesToHash w,
           setAcct c5State wAddr { c5Acct with storage := aset wKey2 (bytesToHash w) c5Acct.storage }))) ∧
     (c5Acct.storageTrie = none → c5Acct.storageRoot = zeroHash →
      c5State.getStorage wAddr wKey2 =
        (zeroHash, setAcct c5State wAddr { c5Acct with storageTrie := some ⟨[], []⟩ }))) :=
  ⟨by decide, by decide,
   getStorage_trie_fallthrough c5State wAddr wKey2 c5Acct (by decide) (by decide)⟩

/-- C5 counterexample: per the claim, a `GetStorage` miss on an absent
key should write the zero hash back into the overlay so the repeated
read is served from the overlay; in fact the overlay still has no entry
for the key after the call. -/
theorem getStorage_absent_no_writeback :
    (c5NoWbState.getStorage wAddr wKey).1 = zeroHash ∧
    (match alookup wAddr ((c5NoWbState.getStorage wAddr wKey).2).cachedAccounts with
     | some a => alookup wKey a.storage
     | none => none) = none := by
  decide

/-- C6 (bug demonstration): `SetCode` does store `(codeHash -> code)` in
the key/value store immediately and marks the account dirty, but the
"hash" it computes is `cry.BytesToHash(code)` — a right-aligned byte
copy that keeps only the last 32 bytes — not a content hash: two
distinct 33-byte codes get the same `codeHash`, and the second
`SetCode` overwrites the first code blob under the shared key. -/
theorem setCode_hash_is_truncation :
    code33a ≠ code33b ∧
    bytesToHash code33a = bytesToHash code33b ∧
    (match alookup wAddr twoCodeState.cachedAccounts with
     | some a => a.codeHash
     | none => []) = bytesToHash code33a ∧
    (match alookup wAddr2 twoCodeState.cachedAccounts with
     | some a => a.codeHash
     | none => []) = bytesToHash code33b ∧
    kvGet twoCodeState.kv (bytesToHash code33a) = some code33b ∧
    (match alookup wAddr twoCodeState.cachedAccounts with
     | some a => a.isDirty
     | none => false) = true := by
  decide

/-- C7: per account the storage phase follows the state machine.
`SetStorage` moves the phase to Pending from any phase (in particular
None and Synced).  `Root()` on the Pending account — whose storage-sync
step is `syncStorage` — pushes every overlay entry into the storage trie
(each entry is looked up in the flushed trie at its encoded value),
leaves the overlay empty, recomputes `storageRoot` as the storage trie's
digest, marks the account dirty (`syncedAcct … |>.isDirty = true`; the
same `Root()` call then flushes the record and clears the flag), and
transitions the phase to Synced (`storageUpdated`). -/
theorem setStorage_root_phase_machine (s : State) (addr : Addr) (key value : Hash)
    (a : CachedAccount)
    (hok : stateOk s = true)
    (ha : alookup addr s.cachedAccounts = some a)
    (hne : isEmpty a = false)
    (hnd : ((aset key value a.storage).map Prod.fst).Nodup) :
    ∃ t₀ : SecureTrie,
      s.setStorage addr key value = setAcct s addr (pendingAcct a key value) ∧
      (pendingAcct a key value).storageStep = .storageSet ∧
      (s.setStorage addr key value).syncStorage addr (pendingAcct a key value) =
        .synced
          (setAcct (s.setStorage addr key value) addr (syncedAcct (pendingAcct a key value) t₀))
          (syncedAcct (pendingAcct a key value) t₀) ∧
      (syncedAcct (pendingAcct a key value) t₀).isDirty = true ∧
      (syncedAcct (pendingAcct a key value) t₀).storageStep = .storageUpdated ∧
      (syncedAcct (pendingAcct a key value) t₀).storage = [] ∧
      (syncedAcct (pendingAcct a key value) t₀).storageTrie =
        some (flushedTrie (pendingAcct a key value) t₀) ∧
      (syncedAcct (pendingAcct a key value) t₀).storageRoot =
        trieDigest (flushedTrie (pendingAcct a key value) t₀) ∧
      alookup addr ((s.setStorage addr key value).root).2.cachedAccounts =
        some { syncedAcct (pendingAcct a key value) t₀ with isDirty := false } ∧
      (∀ kv ∈ (pendingAcct a key value).storage,
        alookup kv.1 (flushedTrie (pendingAcct a key value) t₀).data =
          some (rlpStr (kv.2.dropWhile (· = 0)))) := by
  have hga : s.getAccount addr = (.ok a, s) := by
    rw [State.getAccount, ha]
  have hacct : acctOk a = true := acctOk_of_stateOk hok ha
  have hsp : s.setStorage addr key value = setAcct s addr (pendingAcct a key value) :=
    setStorage_eq hga key value
  have hacctp : acctOk (pendingAcct a key value) = acctOk a := rfl
  have hlook : alookup addr (s.setStorage addr key value).cachedAccounts =
      some (pendingAcct a key value) := by
    rw [hsp]
    exact alookup_aset_self _ _ _
  have hokp : stateOk (s.setStorage addr key value) = true := by
    rw [hsp, stateOk_iff]
    refine ⟨show s.trie.broken = [] from broken_of_stateOk hok, ?_⟩
    show (aset addr _ s.cachedAccounts).all _ = true
    refine all_aset _ _ _ ?_ ((stateOk_iff s).1 hok).2
    show acctOk (pendingAcct a key value) = true
    rw [hacctp]
    exact hacct
  obtain ⟨t₀, hbase, hbr0, hsync⟩ :=
    syncStorage_ok (s := s.setStorage addr key value) hlook (hacctp.trans hacct)
  have hnep : isEmpty (pendingAcct a key value) = false := hne
  obtain ⟨t₀', hbase', hbr0', hentry⟩ :=
    rootLoop_pending ((s.setStorage addr key value).cachedAccounts.map Prod.fst)
      (s.setStorage addr key value) addr (pendingAcct a key value) hokp
      (mem_map_fst_of_alookup hlook) hlook hnep rfl
  have ht : t₀' = t₀ := (Except.ok.inj (hbase.symm.trans hbase')).symm
  rw [ht] at hentry
  refine ⟨t₀, hsp, rfl, hsync, rfl, rfl, rfl, rfl, rfl, ?_, ?_⟩
  · rw [State.root]
    exact hentry
  · intro kv hkv
    exact alookup_flushFold_mem _ _ kv.1 kv.2 hnd (by simpa using hkv)

/-- Witness for C7. -/
theorem setStorage_root_phase_machine_witness :
    stateOk w7State = true ∧
    alookup wAddr w7State.cachedAccounts = some w7Acct ∧
    isEmpty w7Acct = false ∧
    ((aset wKey wVal w7Acct.storage).map Prod.fst).Nodup ∧
    (∃ t₀ : SecureTrie,
      w7State.setStorage wAddr wKey wVal = setAcct w7State wAddr (pendingAcct w7Acct wKey wVal) ∧
      (pendingAcct w7Acct wKey wVal).storageStep = .storageSet ∧
      (w7State.setStorage wAddr wKey wVal).syncStorage wAddr (pendingAcct w7Acct wKey wVal) =
        .synced
          (setAcct (w7State.setStorage wAddr wKey wVal) wAddr (syncedAcct (pendingAcct w7Acct wKey wVal) t₀))
          (syncedAcct (pendingAcct w7Acct wKey wVal) t₀) ∧
      (syncedAcct (pendingAcct w7Acct wKey wVal) t₀).isDirty = true ∧
      (syncedAcct (pendingAcct w7Acct wKey wVal) t₀).storageStep = .storageUpdated ∧
      (syncedAcct (pendingAcct w7Acct wKey wVal) t₀).storage = [] ∧
      (syncedAcct (pendingAcct w7Acct wKey wVal) t₀).storageTrie =
        some (flushedTrie (pendingAcct w7Acct wKey wVal) t₀) ∧
      (syncedAcct (pendingAcct w7Acct wKey wVal) t₀).storageRoot =
        trieDigest (flushedTrie (pendingAcct w7Acct wKey wVal) t₀) ∧
      alookup wAddr ((w7State.setStorage wAddr wKey wVal).root).2.cachedAccounts =
        some { syncedAcct (pendingAcct w7Acct wKey wVal) t₀ with isDirty := false } ∧
      (∀ kv ∈ (pendingAcct w7Acct wKey wVal).storage,
        alookup kv.1 (flushedTrie (pendingAcct w7Acct wKey wVal) t₀).data =
          some (rlpStr (kv.2.dropWhile (· = 0))))) :=
  ⟨by decide, by decide, by decide, by decide,
   setStorage_root_phase_machine w7State wAddr wKey wVal w7Acct
     (by decide) (by decide) (by decide) (by decide)⟩

/-- C8: `Root()` twice in a row with no intervening mutation returns the
same digest both times (indeed the second call is a no-op: same outcome,
same state), and `Root()` never writes to the key/value store. -/
theorem root_idempotent_no_persist (s : State) (hok : stateOk s = true) :
    (∃ h, (s.root).1 = .ok h) ∧
    (s.root).2.root = ((s.root).1, (s.root).2) ∧
    (s.root).2.kv = s.kv := by
  obtain ⟨s₁, hroot, hok₁, hkv, herr⟩ := rootLoop_ok (s.cachedAccounts.map Prod.fst) s hok
  have hR : s.root = (.ok (trieDigest s₁.trie), s₁) := hroot
  have hdone := rootLoop_all_done (s.cachedAccounts.map Prod.fst) s hok
    (fun k a ha => Or.inr (mem_map_fst_of_alookup ha))
  rw [hroot] at hdone
  refine ⟨⟨trieDigest s₁.trie, by rw [hR]⟩, ?_, by rw [hR]; exact hkv⟩
  rw [hR]
  show s₁.root = (Outcome.ok (trieDigest s₁.trie), s₁)
  rw [State.root]
  exact rootLoop_noop _ s₁ hdone

/-- Witness for C8. -/
theorem root_idempotent_no_persist_witness :
    stateOk w8State = true ∧
    ((∃ h, (w8State.root).1 = .ok h) ∧
     (w8State.root).2.root = ((w8State.root).1, (w8State.root).2) ∧
     (w8State.root).2.kv = w8State.kv) :=
  ⟨by decide, root_idempotent_no_persist w8State (by decide)⟩

/-- C9: two state views over independent empty key/value stores, given
the identical sequence of `Set*` calls in the identical order, produce
identical digests from `Commit()` (the embedding is deterministic, and
the trie content is kept canonically ordered, so both runs are the same
function of the operation list). -/
theorem commit_deterministic (ops : List Op) (s₁ s₂ : State)
    (h₁ : s₁ = emptyState) (h₂ : s₂ = emptyState) :
    ((runOps s₁ ops).commit).1 = ((runOps s₂ ops).commit).1 := by
  subst h₁
  subst h₂
  rfl

/-- Witness for C9. -/
theorem commit_deterministic_witness :
    (emptyState : State) = emptyState ∧
    ((runOps emptyState [Op.opSetBalance wAddr 1, Op.opSetStorage wAddr wKey wVal]).commit).1 =
      ((runOps emptyState [Op.opSetBalance wAddr 1, Op.opSetStorage wAddr wKey wVal]).commit).1 :=
  ⟨rfl,
   commit_deterministic [Op.opSetBalance wAddr 1, Op.opSetStorage wAddr wKey wVal]
     emptyState emptyState rfl rfl⟩

/-- C10: for an address absent from the global trie, a successful
read-only call (`GetBalance`, `GetCode`, `GetStorage`) creates a fresh
empty cache entry, after which `Exists` returns true — even though the
account was never written and the trie has no entry — until the entry is
pruned by the next `Root()`, after which `Exists` returns false. -/
theorem read_creates_phantom_account (s : State) (addr : Addr) (key : Hash)
    (hok : stateOk s = true)
    (hnc : alookup addr s.cachedAccounts = none)
    (habs : alookup addr s.trie.data = none) :
    s.getBalance addr = (0, setAcct s addr freshAccount) ∧
    ((setAcct s addr freshAccount).exists' addr).1 = true ∧
    (((s.getCode addr).2).exists' addr).1 = true ∧
    (((s.getStorage addr key).2).exists' addr).1 = true ∧
    (((setAcct s addr freshAccount).root).2.exists' addr).1 = false := by
  have hbrk := broken_of_stateOk hok
  have hga : s.getAccount addr = (.ok freshAccount, setAcct s addr freshAccount) := by
    rw [State.getAccount, hnc]
    simp only [SecureTrie.tryGet, hbrk]
    rw [habs]
    simp [setAcct]
  have hokb : stateOk (setAcct s addr freshAccount) = true := by
    rw [stateOk_iff]
    refine ⟨show s.trie.broken = [] from hbrk, ?_⟩
    show (aset addr _ s.cachedAccounts).all _ = true
    exact all_aset _ _ _ (show acctOk freshAccount = true from by decide)
      ((stateOk_iff s).1 hok).2
  have hlook : alookup addr (setAcct s addr freshAccount).cachedAccounts =
      some freshAccount := alookup_aset_self _ _ _
  refine ⟨?_, ?_, ?_, ?_, ?_⟩
  · rw [State.getBalance, hga]
    rfl
  · rw [State.exists', hlook]
  · rw [State.getCode, hga]
    show ((setAcct s addr freshAccount).exists' addr).1 = true
    rw [State.exists', hlook]
  · have hgt : (setAcct s addr freshAccount).getTrie addr =
        (.ok ⟨[], []⟩,
         setAcct (setAcct s addr freshAccount) addr
           { freshAccount with storageTrie := some ⟨[], []⟩ }) := by
      rw [State.getTrie, hlook]
      rfl
    have hgs : s.getStorage addr key =
        (zeroHash,
         setAcct (setAcct s addr freshAccount) addr
           { freshAccount with storageTrie := some ⟨[], []⟩ }) := by
      rw [State.getStorage, hnc]
      simp only []
      rw [State.getStorageSlow, hga]
      simp only []
      rw [hgt]
      rfl
    rw [hgs]
    show (_ : Bool × State).1 = true
    rw [State.exists']
    simp only [setAcct, alookup_aset_self]
  · exact (prune_exists_false hokb hlook (by decide)).2.2.1

/-- Witness for C10 at a fresh state view over an empty store. -/
theorem read_creates_phantom_account_witness :
    stateOk emptyState = true ∧
    alookup wAddr emptyState.cachedAccounts = none ∧
    alookup wAddr emptyState.trie.data = none ∧
    (emptyState.getBalance wAddr = (0, setAcct emptyState wAddr freshAccount) ∧
     ((setAcct emptyState wAddr freshAccount).exists' wAddr).1 = true ∧
     (((emptyState.getCode wAddr).2).exists' wAddr).1 = true ∧
     (((emptyState.getStorage wAddr wKey).2).exists' wAddr).1 = true ∧
     (((setAcct emptyState wAddr freshAccount).root).2.exists' wAddr).1 = false) :=
  ⟨by decide, by decide, by decide,
   read_creates_phantom_account emptyState wAddr wKey (by decide) (by decide) (by decide)⟩

end ThorState
